import Mathlib

/-!
Verification development for the Ozon "Основной список" converter (src/app.py).

The embedding models the core pipeline of the program:
  `_norm` / `_pick_col` / `ensure_required_columns`  (header resolution),
  the row filter and quantity coercion from `convert`,
  `build_note` / `build_main_df`                      (aggregation), and
  the bold-row shape test from `format_as_osnovnoi_spisok`.

Tables are modelled as lists; pandas group-by (whose default sorts group
keys ascending) is modelled by sorting the deduplicated keys with an
explicit codepoint-lexicographic order, which is also Python's string
order.  Raw cell values are strings; `pandas.to_numeric(errors="coerce")`
is modelled on its numeric grammar — optional sign, digits with optional
fraction and exponent, and the case-insensitive `inf`/`infinity`/`nan`
literals — and `astype(int)` as truncation toward zero of the exact
value, raising on an infinity as pandas does; truncation is proved
against the rational value of the parsed decimal, and the theorems that
use it stay inside the window where the program's float64-to-int64 cast
is exact.
-/

/-- The fixed target status from src/app.py line 10. -/
def DEFAULT_STATUS : String := "Ожидает отгрузки"

/-- Python's whitespace class (the ASCII part), as used by `str.strip`
and by the regex class `\s` in `_norm`. -/
def isPySpace (c : Char) : Bool :=
  c == ' ' || c == '\t' || c == '\n' || c == '\r' || c == '\x0b' || c == '\x0c'

/-- `str.strip()` on the character list: drop whitespace from both ends. -/
def pyStripList (cs : List Char) : List Char :=
  ((cs.dropWhile isPySpace).reverse.dropWhile isPySpace).reverse

/-- `str.lower()` restricted to the alphabets relevant to the header
variants: ASCII Latin and the Russian Cyrillic block (plus Ё). -/
def pyLowerChar (c : Char) : Char :=
  if 'A' ≤ c ∧ c ≤ 'Z' then Char.ofNat (c.toNat + 32)
  else if 'А' ≤ c ∧ c ≤ 'Я' then Char.ofNat (c.toNat + 32)
  else if c = 'Ё' then 'ё'
  else c

/-- The regex class `[\s\-_]` from `_norm`. -/
def isSpaceDash (c : Char) : Bool := isPySpace c || c == '-' || c == '_'

/-- Worker for `collapseRuns`; the flag records whether the previous
character belonged to the class (so the run is already replaced). -/
def collapseRunsAux (p : Char → Bool) : List Char → Bool → List Char
  | [], _ => []
  | c :: cs, inRun =>
    if p c then (if inRun then collapseRunsAux p cs true else ' ' :: collapseRunsAux p cs true)
    else c :: collapseRunsAux p cs false

/-- `re.sub(r"X+", " ", s)` for a character class `X`: every maximal run
of class characters is replaced by a single space. -/
def collapseRuns (p : Char → Bool) (cs : List Char) : List Char := collapseRunsAux p cs false

/-- The regex class `[0-9a-zа-я ]` kept by `_norm` (`а`..`я` is
U+0430..U+044F). -/
def isKeptChar (c : Char) : Bool :=
  (decide ('0' ≤ c) && decide (c ≤ '9')) || (decide ('a' ≤ c) && decide (c ≤ 'z'))
    || (decide ('а' ≤ c) && decide (c ≤ 'я')) || c == ' '

/-- `_norm` from src/app.py lines 75-80: strip, lower-case, map `ё` to
`е`, collapse whitespace/hyphen/underscore runs to one space, drop every
character outside `[0-9a-zа-я ]`, collapse whitespace again and strip. -/
def _norm (s : String) : String :=
  let cs := pyStripList s.data
  let cs := cs.map pyLowerChar
  let cs := cs.map (fun c => if c == 'ё' then 'е' else c)
  let cs := collapseRuns isSpaceDash cs
  let cs := cs.filter isKeptChar
  let cs := collapseRuns isPySpace cs
  String.mk (pyStripList cs)

/-- Prefix test on character lists, then substring (`in`) test. -/
def hasInfixChars (pat : List Char) : List Char → Bool
  | [] => pat.isEmpty
  | c :: t => pat.isPrefixOf (c :: t) || hasInfixChars pat t

/-- Python's `pat in hay` substring test. -/
def strHasSubstr (hay pat : String) : Bool := hasInfixChars pat.data hay.data

/-- The dictionary `{_norm(c): c for c in df.columns}` of `_pick_col`
keeps, for each normalized form, the last column that produced it; looking
up `nv` therefore yields the last column whose normalized name is `nv`. -/
def lastColWithNorm (cols : List String) (nv : String) : Option String :=
  cols.reverse.find? (fun c => _norm c == nv)

/-- `_pick_col` from src/app.py lines 82-94: first the exact stage (first
variant, in priority order, whose normalized form is the normalized name
of some column), then the fallback scan of the columns in original order
for one whose normalized name has some variant's non-empty normalized
form as a substring. -/
def _pick_col (cols : List String) (variants : List String) : Option String :=
  match variants.findSome? (fun v => lastColWithNorm cols (_norm v)) with
  | some c => some c
  | none =>
    cols.find? (fun c =>
      variants.any (fun v => !(_norm v == "") && strHasSubstr (_norm c) (_norm v)))

def status_variants : List String := ["Статус", "Статус заказа", "State", "Status"]
def article_variants : List String :=
  ["Артикул", "Артикул продавца", "Артикул товара", "Vendor code", "Vendor", "Offer id", "Offer_id"]
def qty_variants : List String :=
  ["Количество", "Кол-во", "Кол во", "Кол-во товара", "Qty", "Quantity"]
def ship_variants : List String :=
  ["Номер отправления", "Отправление", "Номер постинга", "Posting number", "Shipment", "Shipment number"]

/-- An input table: its column names and its rows of raw string cells. -/
structure Table where
  cols : List String
  cells : List (List String)
deriving DecidableEq

/-- Python truthiness of `c_status` etc. in `ensure_required_columns`:
`None` and the empty string are falsy. -/
def truthyCol (o : Option String) : Bool :=
  match o with
  | none => false
  | some s => !(s == "")

/-- The `missing` list built by `ensure_required_columns` (src/app.py
lines 107-111), in the fixed order Статус, Артикул, Количество, Номер
отправления. -/
def codeMissing (df : Table) : List String :=
  (if truthyCol (_pick_col df.cols status_variants) then [] else ["Статус"]) ++
  (if truthyCol (_pick_col df.cols article_variants) then [] else ["Артикул"]) ++
  (if truthyCol (_pick_col df.cols qty_variants) then [] else ["Количество"]) ++
  (if truthyCol (_pick_col df.cols ship_variants) then [] else ["Номер отправления"])

/-- `df.rename(columns={c_status: "Статус", ...})`: a Python dict literal
with duplicate keys keeps the last value, so the test order here is the
reverse of the dict entry order. -/
def renameFor (c_status c_art c_qty c_ship : Option String) (col : String) : String :=
  if some col == c_ship then ("Номер отправления")
  else if some col == c_qty then ("Количество")
  else if some col == c_art then ("Артикул")
  else if some col == c_status then ("Статус")
  else col

/-- `ensure_required_columns` from src/app.py lines 96-121, with the
`ValueError` modelled as an error value carrying the missing-name list. -/
def ensure_required_columns (df : Table) : Except (List String) Table :=
  if (codeMissing df).isEmpty then
    Except.ok
      { cols := df.cols.map (renameFor (_pick_col df.cols status_variants)
          (_pick_col df.cols article_variants) (_pick_col df.cols qty_variants)
          (_pick_col df.cols ship_variants)),
        cells := df.cells }
  else Except.error (codeMissing df)

/-- Spec-side list of the unresolved canonical fields, in the same fixed
order; `ensure_required_columns` is proved to fail with exactly this. -/
def missingOf (df : Table) : List String :=
  (if _pick_col df.cols status_variants = none then ["Статус"] else []) ++
  (if _pick_col df.cols article_variants = none then ["Артикул"] else []) ++
  (if _pick_col df.cols qty_variants = none then ["Количество"] else []) ++
  (if _pick_col df.cols ship_variants = none then ["Номер отправления"] else [])

/-! ### Python string order (codepoint-lexicographic, as pandas sorts keys) -/

def listLeB : List Char → List Char → Bool
  | [], _ => true
  | _ :: _, [] => false
  | a :: as, b :: bs => decide (a.toNat < b.toNat) || (a == b && listLeB as bs)

/-- Python's `≤` on strings: lexicographic by codepoint. -/
def StrLe (a b : String) : Prop := listLeB a.data b.data = true

instance : DecidableRel StrLe := fun _ _ => instDecidableEqBool _ _

/-- Sorted list of the distinct elements of `l`: the model of the sorted
group keys of `df.groupby(...)` (strings) and of `sorted({...})` (ints). -/
def sortedDedupStr (l : List String) : List String := (l.dedup).insertionSort StrLe

def sortedDedupInt (l : List Int) : List Int := (l.dedup).insertionSort (fun a b => a ≤ b)

/-! ### Ready rows and the aggregator -/

/-- A canonicalized input row before filtering: the four canonical cells,
the quantity still raw. -/
structure CRow where
  status : String
  article : String
  qtyRaw : String
  ship : String
deriving DecidableEq

/-- A Ready Row: canonicalized, status-filtered, quantity coerced. -/
structure Row where
  article : String
  qty : Int
  ship : String
deriving DecidableEq

/-- One row of the output table: Артикул, Количество (display string),
КОД. -/
structure OutRow where
  artikul : String
  kolichestvo : String
  kod : String
deriving DecidableEq

/-- Python's `", ".join(...)` / `"; ".join(...)`. -/
def strJoin (sep : String) : List String → String
  | [] => ""
  | [x] => x
  | x :: y :: xs => x ++ sep ++ strJoin sep (y :: xs)

/-- The distinct quantity values of a group that are strictly greater
than 1, ascending: `sorted({int(q) for q in qtys if int(q) > 1})`. -/
def noteVals (qtys : List Int) : List Int := sortedDedupInt (qtys.filter (fun q => decide (1 < q)))

/-- `build_note` from src/app.py lines 123-127. -/
def build_note (qtys : List Int) : String :=
  if (noteVals qtys).isEmpty then ("")
  else strJoin (", ") ((noteVals qtys).map (fun q => toString q ++ "в одну"))

/-- The quantity column of the group of Ready Rows sharing article `a`,
in input row order. -/
def articleQtys (rows : List Row) (a : String) : List Int :=
  (rows.filter (fun r => r.article == a)).map Row.qty

/-- The per-article total: `agg(Итого=("Количество","sum"))`. -/
def articleTotal (rows : List Row) (a : String) : Int := (articleQtys rows a).sum

/-- The display quantity string from src/app.py lines 134-137:
`"<Итого>(<Пометка>)"` when the note is non-empty, else `"<Итого>"`. -/
def displayQty (total : Int) (note : String) : String :=
  if !(note == "") then toString total ++ "(" ++ note ++ ")" else toString total

/-- `top_df` of `build_main_df` (src/app.py lines 129-142): one row per
distinct article (group keys sorted by pandas), with display quantity and
an empty КОД cell. -/
def top_df (rows : List Row) : List OutRow :=
  (sortedDedupStr (rows.map Row.article)).map (fun a =>
    { artikul := a,
      kolichestvo := displayQty (articleTotal rows a) (build_note (articleQtys rows a)),
      kod := "" })

/-- The rows of one shipment group. -/
def shipRows (rows : List Row) (s : String) : List Row :=
  rows.filter (fun r => r.ship == s)

/-- `ship_df["Артикул"].nunique()`. -/
def nuniqueArticles (rows : List Row) (s : String) : Nat :=
  ((shipRows rows s).map Row.article).dedup.length

/-- The rendered line of one multi-article shipment (src/app.py lines
148-154): per-article sums, article-sorted, joined by `"; "` with an
em-dash between article and sum. -/
def shipLine (rows : List Row) (s : String) : String :=
  strJoin ("; ") ((sortedDedupStr ((shipRows rows s).map Row.article)).map (fun a =>
    a ++ " — " ++ toString (((shipRows rows s).filter (fun r => r.article == a)).map Row.qty).sum))

/-- `bottom_df` of `build_main_df` (src/app.py lines 144-157): one line
per shipment (groups iterated in sorted key order) having more than one
distinct article. -/
def bottom_df (rows : List Row) : List OutRow :=
  (sortedDedupStr (rows.map Row.ship)).filterMap (fun s =>
    if nuniqueArticles rows s ≤ 1 then none
    else some { artikul := shipLine rows s, kolichestvo := "", kod := "" })

/-- The shipments that survive the `nunique() <= 1` skip, in output
order. -/
def multiShips (rows : List Row) : List String :=
  (sortedDedupStr (rows.map Row.ship)).filter (fun s => !(nuniqueArticles rows s ≤ 1 : Bool))

def blankRow : OutRow := { artikul := "", kolichestvo := "", kod := "" }

/-- `build_main_df` (src/app.py line 159): summary rows, two blank rows,
shipment lines. -/
def build_main_df (rows : List Row) : List OutRow :=
  top_df rows ++ [blankRow, blankRow] ++ bottom_df rows

/-! ### The row filter and quantity coercion of `convert` -/

/-- ASCII digit test used by the decimal model of `to_numeric`. -/
def isDigitB (c : Char) : Bool := decide (48 ≤ c.toNat) && decide (c.toNat ≤ 57)

/-- Value of a digit string, most significant first. -/
def digitsVal (cs : List Char) : Nat := cs.foldl (fun a c => a * 10 + (c.toNat - 48)) 0

/-- A parsed finite decimal literal: sign, integer part, fraction
numerator, number of fraction digits and decimal exponent — the value is
`±(ip + fnum / 10^flen) · 10^exp`. -/
structure DecNum where
  neg : Bool
  ip : Nat
  fnum : Nat
  flen : Nat
  exp : Int
deriving DecidableEq

/-- The rational value a `DecNum` denotes. -/
def DecNum.toRat (d : DecNum) : Rat :=
  (if d.neg then (-1 : Rat) else 1)
    * (((d.ip : Rat) + (d.fnum : Rat) / ((10 : Rat) ^ d.flen)) * (10 : Rat) ^ d.exp)

/-- The outcomes of the numeric parse of `pd.to_numeric`: a finite
decimal, an infinity (`inf`/`infinity` literals), or NaN (the `nan`
literal). -/
inductive PdVal where
  | num (d : DecNum)
  | inf (neg : Bool)
  | nan
deriving DecidableEq

/-- Leading `-` or `+` of a numeric literal. -/
def splitSign : List Char → Bool × List Char
  | '-' :: rest => (true, rest)
  | '+' :: rest => (false, rest)
  | cs => (false, cs)

/-- ASCII lower-casing for the case-insensitive `inf`/`nan` literals. -/
def asciiLower (c : Char) : Char :=
  if 'A' ≤ c ∧ c ≤ 'Z' then Char.ofNat (c.toNat + 32) else c

/-- Exponent part of the decimal parser: the characters after `e`/`E`
must be an optionally signed non-empty digit string. -/
def parseExp (neg : Bool) (ip fnum flen : Nat) (cs : List Char) : Option PdVal :=
  if (splitSign cs).2.isEmpty || !((splitSign cs).2.dropWhile isDigitB).isEmpty then none
  else some (PdVal.num ⟨neg, ip, fnum, flen,
    if (splitSign cs).1 then -(digitsVal (splitSign cs).2 : Int)
    else (digitsVal (splitSign cs).2 : Int)⟩)

/-- Mantissa part of the decimal parser, after the sign: digits with an
optional fractional part (at least one digit overall) and an optional
exponent. -/
def parseMantissa (neg : Bool) (cs : List Char) : Option PdVal :=
  match cs.dropWhile isDigitB with
  | [] =>
    if (cs.takeWhile isDigitB).isEmpty then none
    else some (PdVal.num ⟨neg, digitsVal (cs.takeWhile isDigitB), 0, 0, 0⟩)
  | c :: cs2 =>
    if c == '.' then
      if (cs.takeWhile isDigitB).isEmpty && (cs2.takeWhile isDigitB).isEmpty then none
      else
        match cs2.dropWhile isDigitB with
        | [] => some (PdVal.num ⟨neg, digitsVal (cs.takeWhile isDigitB),
            digitsVal (cs2.takeWhile isDigitB), (cs2.takeWhile isDigitB).length, 0⟩)
        | e :: ecs =>
          if e == 'e' || e == 'E' then
            parseExp neg (digitsVal (cs.takeWhile isDigitB)) (digitsVal (cs2.takeWhile isDigitB))
              (cs2.takeWhile isDigitB).length ecs
          else none
    else if (c == 'e' || c == 'E') && !(cs.takeWhile isDigitB).isEmpty then
      parseExp neg (digitsVal (cs.takeWhile isDigitB)) 0 0 cs2
    else none

/-- After the sign: the case-insensitive `inf`/`infinity`/`nan` literals,
else a finite decimal. -/
def parseAfterSign (neg : Bool) (cs : List Char) : Option PdVal :=
  if cs.map asciiLower = ['i', 'n', 'f'] ∨ cs.map asciiLower = ['i', 'n', 'f', 'i', 'n', 'i', 't', 'y'] then
    some (PdVal.inf neg)
  else if cs.map asciiLower = ['n', 'a', 'n'] then some PdVal.nan
  else parseMantissa neg cs

/-- Model of `pd.to_numeric(x, errors="coerce")` on a raw string cell:
optional surrounding whitespace and sign, then a decimal with optional
fraction and exponent, or `inf`/`infinity`/`nan` (case-insensitive).
`none` is the coerced `NaN` of every other string (including the empty
cell).  Not modelled: float64 overflow of astronomically large exponents
(`1e999` parses finite here but is `inf` in the program). -/
def to_numeric? (s : String) : Option PdVal :=
  parseAfterSign (splitSign (pyStripList s.data)).1 (splitSign (pyStripList s.data)).2

/-- `astype(int)` on a finite parsed value: truncation toward zero of the
exact decimal, computed by integer division.  The program casts through
float64 into int64; within the window `exp = 0` and
`(ip + 1) * 10^flen < 2^53` the float64 rounding cannot reach the next
integer (the gap to it is at least `10^-flen > (ip + 1) * 2^-53`, half an
ulp) and the result fits int64, so this agrees with the program there.
Outside it — 16 or more significant digits, or int64 overflow, where the
program's cast rounds or wraps — float64 behaviour is not modelled, and
no theorem below relies on this definition outside that window. -/
def astype_int (d : DecNum) : Int :=
  if d.neg then
    -((((d.ip * 10 ^ d.flen + d.fnum) * 10 ^ d.exp.toNat) / 10 ^ (d.flen + (-d.exp).toNat) : Nat) : Int)
  else
    ((((d.ip * 10 ^ d.flen + d.fnum) * 10 ^ d.exp.toNat) / 10 ^ (d.flen + (-d.exp).toNat) : Nat) : Int)

/-- Truncation toward zero of a rational, the semantics of the float-to-int
cast; proved to agree with `astype_int` on parsed decimals. -/
def truncTowardZero (q : Rat) : Int := if q < 0 then -(⌊-q⌋) else ⌊q⌋

/-- One cell of `pd.to_numeric(..., errors="coerce").fillna(0).astype(int)`
(src/app.py line 224): an unparsable cell coerces to NaN and `fillna`
makes it 0; a NaN literal likewise; an infinite value makes `astype(int)`
raise (pandas IntCastingNaNError), aborting the whole conversion — the
error escapes the `try` at src/app.py lines 217-221. -/
def coerceQtyE (s : String) : Except Unit Int :=
  match to_numeric? s with
  | none => Except.ok 0
  | some PdVal.nan => Except.ok 0
  | some (PdVal.inf _) => Except.error ()
  | some (PdVal.num d) => Except.ok (astype_int d)

/-- The coerced quantity on the non-raising path, used by `readyRows`;
where `coerceQtyE` raises the program produces no rows at all (see
`readyRowsE`), so the 0 placeholder here is never relied upon. -/
def coerceQty (s : String) : Int :=
  match coerceQtyE s with
  | Except.ok n => n
  | Except.error _ => 0

/-- The Row Filter (src/app.py lines 223-224): keep exactly the rows whose
status equals `DEFAULT_STATUS`, coercing the quantity. -/
def readyRows (table : List CRow) : List Row :=
  (table.filter (fun r => r.status == DEFAULT_STATUS)).map
    (fun r => { article := r.article, qty := coerceQty r.qtyRaw, ship := r.ship })

/-- The Row Filter with its error path: the column-wide `astype(int)`
raises as soon as any kept cell parses to an infinity, and then the whole
request fails with no rows. -/
def readyRowsE (table : List CRow) : Except Unit (List Row) :=
  if (table.filter (fun r => r.status == DEFAULT_STATUS)).any
      (fun r => match to_numeric? r.qtyRaw with
        | some (PdVal.inf _) => true
        | _ => false) then
    Except.error ()
  else Except.ok (readyRows table)

/-- The core of `convert` after column canonicalization. -/
def convertCore (table : List CRow) : List OutRow :=
  build_main_df (readyRows table)

/-- The bolding shape test of `format_as_osnovnoi_spisok` (src/app.py
line 194): column 1 non-blank, columns 2 and 3 empty, and column 1
contains an em-dash or a semicolon. -/
def boldShape (r : OutRow) : Bool :=
  !(String.mk (pyStripList r.artikul.data) == "") && (r.kolichestvo == "") && (r.kod == "")
    && (strHasSubstr r.artikul ("—") || strHasSubstr r.artikul (";"))

/-! ### Properties of the codepoint order -/

theorem char_eq_of_toNat_eq {a b : Char} (h : a.toNat = b.toNat) : a = b :=
  Char.ext (UInt32.ext h)

theorem listLeB_total : ∀ (as bs : List Char), listLeB as bs = true ∨ listLeB bs as = true := by
  intro as
  induction as with
  | nil => intro bs; left; rfl
  | cons a as ih =>
    intro bs
    cases bs with
    | nil => right; rfl
    | cons b bs =>
      rcases Nat.lt_trichotomy a.toNat b.toNat with h | h | h
      · left; simp [listLeB, h]
      · have hab : a = b := char_eq_of_toNat_eq h
        subst hab
        rcases ih bs with h' | h'
        · left; simp [listLeB, h']
        · right; simp [listLeB, h']
      · right; simp [listLeB, h]

theorem listLeB_antisymm : ∀ (as bs : List Char),
    listLeB as bs = true → listLeB bs as = true → as = bs := by
  intro as
  induction as with
  | nil =>
    intro bs _ h2
    cases bs with
    | nil => rfl
    | cons b bs => simp [listLeB] at h2
  | cons a as ih =>
    intro bs h1 h2
    cases bs with
    | nil => simp [listLeB] at h1
    | cons b bs =>
      simp only [listLeB, Bool.or_eq_true, Bool.and_eq_true, decide_eq_true_eq, beq_iff_eq] at h1 h2
      rcases h1 with h1 | ⟨hab, h1⟩
      · rcases h2 with h2 | ⟨hba, h2⟩
        · omega
        · subst hba; omega
      · subst hab
        rcases h2 with h2 | ⟨_, h2⟩
        · omega
        · rw [ih bs h1 h2]

theorem listLeB_trans : ∀ (as bs cs : List Char),
    listLeB as bs = true → listLeB bs cs = true → listLeB as cs = true := by
  intro as
  induction as with
  | nil => intro bs cs _ _; rfl
  | cons a as ih =>
    intro bs cs h1 h2
    cases bs with
    | nil => simp [listLeB] at h1
    | cons b bs =>
      cases cs with
      | nil => simp [listLeB] at h2
      | cons c cs =>
        simp only [listLeB, Bool.or_eq_true, Bool.and_eq_true, decide_eq_true_eq,
          beq_iff_eq] at h1 h2 ⊢
        rcases h1 with h1 | ⟨hab, h1⟩
        · rcases h2 with h2 | ⟨hbc, h2⟩
          · left; omega
          · subst hbc; left; exact h1
        · subst hab
          rcases h2 with h2 | ⟨hbc, h2⟩
          · left; exact h2
          · subst hbc; right; exact ⟨rfl, ih bs cs h1 h2⟩

instance : IsTotal String StrLe :=
  ⟨fun a b => listLeB_total a.data b.data⟩

instance : IsTrans String StrLe :=
  ⟨fun a b c h1 h2 => listLeB_trans a.data b.data c.data h1 h2⟩

instance : IsAntisymm String StrLe :=
  ⟨fun a b h1 h2 => String.ext (listLeB_antisymm a.data b.data h1 h2)⟩

/-- Sorting the deduplication is invariant under permutation: this is the
sense in which the aggregator depends only on the multiset of rows. -/
theorem insertionSort_dedup_eq_of_perm {α : Type} [DecidableEq α] (r : α → α → Prop)
    [DecidableRel r] [IsTotal α r] [IsTrans α r] [IsAntisymm α r] {l l' : List α}
    (h : l.Perm l') : (l.dedup).insertionSort r = (l'.dedup).insertionSort r := by
  apply List.eq_of_perm_of_sorted (r := r)
  · exact ((List.perm_insertionSort r _).trans h.dedup).trans (List.perm_insertionSort r _).symm
  · exact List.sorted_insertionSort r _
  · exact List.sorted_insertionSort r _

theorem sortedDedupStr_eq_of_perm {l l' : List String} (h : l.Perm l') :
    sortedDedupStr l = sortedDedupStr l' :=
  insertionSort_dedup_eq_of_perm StrLe h

theorem sortedDedupInt_eq_of_perm {l l' : List Int} (h : l.Perm l') :
    sortedDedupInt l = sortedDedupInt l' :=
  insertionSort_dedup_eq_of_perm _ h

theorem sortedDedupStr_sorted (l : List String) : List.Sorted StrLe (sortedDedupStr l) :=
  List.sorted_insertionSort StrLe _

theorem sortedDedupStr_nodup (l : List String) : (sortedDedupStr l).Nodup :=
  (List.nodup_dedup l).perm (List.perm_insertionSort StrLe _).symm

theorem mem_sortedDedupStr {l : List String} {a : String} : a ∈ sortedDedupStr l ↔ a ∈ l := by
  unfold sortedDedupStr
  rw [List.mem_insertionSort, List.mem_dedup]

theorem mem_sortedDedupInt {l : List Int} {a : Int} : a ∈ sortedDedupInt l ↔ a ∈ l := by
  unfold sortedDedupInt
  rw [List.mem_insertionSort, List.mem_dedup]

/-! ### Permutation invariance of the aggregator -/

theorem articleQtys_perm {rows rows' : List Row} (h : rows.Perm rows') (a : String) :
    (articleQtys rows a).Perm (articleQtys rows' a) :=
  (h.filter _).map _

theorem noteVals_perm {q q' : List Int} (h : q.Perm q') : noteVals q = noteVals q' :=
  sortedDedupInt_eq_of_perm (h.filter _)

theorem build_note_perm {q q' : List Int} (h : q.Perm q') : build_note q = build_note q' := by
  unfold build_note
  rw [noteVals_perm h]

theorem top_df_perm {rows rows' : List Row} (h : rows.Perm rows') : top_df rows = top_df rows' := by
  unfold top_df
  rw [sortedDedupStr_eq_of_perm (h.map Row.article)]
  apply List.map_congr_left
  intro a _
  have hq := articleQtys_perm h a
  simp only [articleTotal, hq.sum_eq, build_note_perm hq]

theorem shipRows_perm {rows rows' : List Row} (h : rows.Perm rows') (s : String) :
    (shipRows rows s).Perm (shipRows rows' s) :=
  h.filter _

theorem nuniqueArticles_perm {rows rows' : List Row} (h : rows.Perm rows') (s : String) :
    nuniqueArticles rows s = nuniqueArticles rows' s :=
  (((shipRows_perm h s).map Row.article).dedup).length_eq

theorem shipLine_perm {rows rows' : List Row} (h : rows.Perm rows') (s : String) :
    shipLine rows s = shipLine rows' s := by
  unfold shipLine
  rw [sortedDedupStr_eq_of_perm ((shipRows_perm h s).map Row.article)]
  congr 1
  apply List.map_congr_left
  intro a _
  rw [(((shipRows_perm h s).filter _).map Row.qty).sum_eq]

theorem filterMap_congr_fun {α β : Type} {f g : α → Option β} :
    ∀ (l : List α), (∀ a ∈ l, f a = g a) → l.filterMap f = l.filterMap g := by
  intro l
  induction l with
  | nil => intro _; rfl
  | cons x t ih =>
    intro hfg
    rw [List.filterMap_cons, List.filterMap_cons, hfg x (by simp),
      ih (fun a ha => hfg a (by simp [ha]))]

theorem bottom_df_perm {rows rows' : List Row} (h : rows.Perm rows') :
    bottom_df rows = bottom_df rows' := by
  unfold bottom_df
  rw [sortedDedupStr_eq_of_perm (h.map Row.ship)]
  apply filterMap_congr_fun
  intro s _
  rw [nuniqueArticles_perm h s, shipLine_perm h s]

theorem build_main_df_perm {rows rows' : List Row} (h : rows.Perm rows') :
    build_main_df rows = build_main_df rows' := by
  unfold build_main_df
  rw [top_df_perm h, bottom_df_perm h]

/-- The skip-and-emit loop of `bottom_df` as a filter followed by a map. -/
theorem filterMap_if_eq_map_filter {α β : Type} (p : α → Prop) [DecidablePred p] (f : α → β) :
    ∀ (l : List α),
      l.filterMap (fun a => if p a then none else some (f a)) =
        (l.filter (fun a => !(decide (p a)))).map f := by
  intro l
  induction l with
  | nil => rfl
  | cons x t ih =>
    by_cases hx : p x
    · simp [List.filterMap_cons, List.filter_cons, hx, ih]
    · simp [List.filterMap_cons, List.filter_cons, hx, ih]

theorem bottom_df_eq_map_multiShips (rows : List Row) :
    bottom_df rows = (multiShips rows).map (fun s => OutRow.mk (shipLine rows s) "" "") := by
  unfold bottom_df multiShips
  exact filterMap_if_eq_map_filter (fun s => nuniqueArticles rows s ≤ 1) _ _

theorem mem_multiShips {rows : List Row} {s : String} :
    s ∈ multiShips rows ↔ s ∈ rows.map Row.ship ∧ 1 < nuniqueArticles rows s := by
  unfold multiShips
  rw [List.mem_filter, mem_sortedDedupStr]
  simp [Nat.not_le]

/-! ### Non-emptiness of rendered numbers and substring facts -/

theorem toDigitsCore_length_le (b : Nat) :
    ∀ (fuel n : Nat) (ds : List Char), ds.length ≤ (Nat.toDigitsCore b fuel n ds).length := by
  intro fuel
  induction fuel with
  | zero => intro n ds; rw [Nat.toDigitsCore]
  | succ f ih =>
    intro n ds
    rw [Nat.toDigitsCore]
    by_cases h : n / b = 0
    · simp [h]
    · simp only [h, if_false]
      exact le_trans (by simp) (ih (n / b) _)

theorem nat_repr_length_pos (n : Nat) : 0 < (Nat.repr n).length := by
  show 0 < (Nat.toDigits 10 n).asString.length
  have hlen : (Nat.toDigits 10 n).asString.length = (Nat.toDigits 10 n).length := rfl
  rw [hlen, Nat.toDigits, Nat.toDigitsCore]
  by_cases h : n / 10 = 0
  · simp [h]
  · simp only [h, if_false]
    calc 0 < ((n % 10).digitChar :: []).length := by simp
      _ ≤ _ := toDigitsCore_length_le 10 n (n / 10) _

theorem int_toString_length_pos (i : Int) : 0 < (toString i).length := by
  have hrepr : toString i = Int.repr i := rfl
  rw [hrepr]
  cases i with
  | ofNat m => exact nat_repr_length_pos m
  | negSucc m =>
    show 0 < ("-" ++ Nat.repr (m + 1)).length
    rw [String.length_append]
    have := nat_repr_length_pos (m + 1)
    omega

theorem beq_empty_eq_false_of_length_pos {s : String} (h : 0 < s.length) : (s == "") = false := by
  rw [Bool.eq_false_iff]
  intro hs
  rw [beq_iff_eq] at hs
  subst hs
  simp at h

/-- The display quantity string always starts with the rendered total, so
it is never empty. -/
theorem displayQty_beq_empty (t : Int) (note : String) : (displayQty t note == "") = false := by
  apply beq_empty_eq_false_of_length_pos
  unfold displayQty
  by_cases h : (note == "") = true
  · simp only [h, Bool.not_true, if_false]
    exact int_toString_length_pos t
  · simp only [h, Bool.not_false, if_true]
    rw [String.length_append, String.length_append, String.length_append]
    have := int_toString_length_pos t
    omega

theorem strJoin_length_ge_head (sep x : String) (xs : List String) :
    x.length ≤ (strJoin sep (x :: xs)).length := by
  cases xs with
  | nil => exact le_rfl
  | cons y t =>
    show x.length ≤ (x ++ sep ++ strJoin sep (y :: t)).length
    rw [String.length_append, String.length_append]
    omega

theorem mem_data_strJoin {sep : String} {c : Char} {x : String} :
    ∀ {l : List String}, x ∈ l → c ∈ x.data → c ∈ (strJoin sep l).data := by
  intro l
  induction l with
  | nil => intro hx _; simp at hx
  | cons y t ih =>
    intro hx hc
    cases t with
    | nil =>
      rw [List.mem_singleton] at hx
      subst hx
      exact hc
    | cons z t =>
      show c ∈ (y ++ sep ++ strJoin sep (z :: t)).data
      rw [String.data_append, String.data_append]
      rcases List.mem_cons.mp hx with rfl | hx'
      · exact List.mem_append_left _ (List.mem_append_left _ hc)
      · exact List.mem_append_right _ (ih hx' hc)

theorem hasInfixChars_iff (pat : List Char) :
    ∀ (hay : List Char), hasInfixChars pat hay = true ↔ pat <:+: hay := by
  intro hay
  induction hay with
  | nil => simp [hasInfixChars, List.isEmpty_iff, List.infix_nil]
  | cons c t ih =>
    simp [hasInfixChars, List.isPrefixOf_iff_prefix, ih, List.infix_cons_iff]

theorem strHasSubstr_singleton {hay : String} {c : Char} (h : c ∈ hay.data) {pat : String}
    (hp : pat.data = [c]) : strHasSubstr hay pat = true := by
  unfold strHasSubstr
  rw [hp, hasInfixChars_iff]
  obtain ⟨s, t, hst⟩ := List.append_of_mem h
  exact ⟨s, t, by rw [hst]; simp⟩

theorem mem_dropWhile_of_mem {p : Char → Bool} {c : Char} (hc : p c = false) :
    ∀ {l : List Char}, c ∈ l → c ∈ l.dropWhile p := by
  intro l
  induction l with
  | nil => intro h; simp at h
  | cons x t ih =>
    intro h
    rw [List.dropWhile_cons]
    by_cases hx : p x = true
    · simp only [hx, if_true]
      rcases List.mem_cons.mp h with rfl | h'
      · rw [hc] at hx; cases hx
      · exact ih h'
    · simp only [Bool.not_eq_true] at hx
      simp only [hx, Bool.false_eq_true, if_false]
      exact h

theorem mem_pyStrip_of_not_space {c : Char} (hc : isPySpace c = false) {l : List Char}
    (h : c ∈ l) : c ∈ pyStripList l := by
  unfold pyStripList
  rw [List.mem_reverse]
  apply mem_dropWhile_of_mem hc
  rw [List.mem_reverse]
  exact mem_dropWhile_of_mem hc h

theorem mk_beq_empty_eq_false {l : List Char} (h : l ≠ []) : (String.mk l == "") = false := by
  rw [Bool.eq_false_iff]
  intro hb
  rw [beq_iff_eq] at hb
  exact h (congrArg String.data hb)

/-! ### The bolding shape on the two sections -/

theorem dash_mem_shipLine {rows : List Row} {s : String}
    (h : ((shipRows rows s).map Row.article) ≠ []) : '—' ∈ (shipLine rows s).data := by
  unfold shipLine
  obtain ⟨x, hx⟩ := List.exists_mem_of_ne_nil _ h
  have ha : x ∈ sortedDedupStr ((shipRows rows s).map Row.article) := mem_sortedDedupStr.mpr hx
  apply mem_data_strJoin (List.mem_map_of_mem _ ha)
  rw [String.data_append, String.data_append]
  exact List.mem_append_left _ (List.mem_append_right _ (by decide))

theorem boldShape_of_mem_bottom {rows : List Row} {r : OutRow} (hr : r ∈ bottom_df rows) :
    boldShape r = true := by
  rw [bottom_df_eq_map_multiShips] at hr
  obtain ⟨s, hs, rfl⟩ := List.mem_map.mp hr
  have hnu := (mem_multiShips.mp hs).2
  have hne : ((shipRows rows s).map Row.article) ≠ [] := by
    intro hnil
    unfold nuniqueArticles at hnu
    rw [hnil] at hnu
    simp at hnu
  have hdash := dash_mem_shipLine hne
  have h1 : (String.mk (pyStripList (shipLine rows s).data) == "") = false :=
    mk_beq_empty_eq_false (List.ne_nil_of_mem (mem_pyStrip_of_not_space (by decide) hdash))
  have h2 : strHasSubstr (shipLine rows s) ("—") = true :=
    strHasSubstr_singleton hdash rfl
  simp [boldShape, h1, h2]

theorem boldShape_of_mem_top {rows : List Row} {r : OutRow} (hr : r ∈ top_df rows) :
    boldShape r = false := by
  unfold top_df at hr
  obtain ⟨a, _, rfl⟩ := List.mem_map.mp hr
  simp [boldShape, displayQty_beq_empty]

/-! ### Emptiness of the annotation -/

theorem noteVals_eq_nil_iff {qtys : List Int} : noteVals qtys = [] ↔ ∀ q ∈ qtys, ¬ 1 < q := by
  unfold noteVals sortedDedupInt
  constructor
  · intro h q hq hlt
    have hmem : q ∈ List.insertionSort (fun a b => a ≤ b) (qtys.filter (fun q => decide (1 < q))).dedup := by
      rw [List.mem_insertionSort, List.mem_dedup, List.mem_filter]
      exact ⟨hq, by simpa using hlt⟩
    rw [h] at hmem
    simp at hmem
  · intro h
    rw [List.eq_nil_iff_forall_not_mem]
    intro q hmem
    rw [List.mem_insertionSort, List.mem_dedup, List.mem_filter] at hmem
    exact h q hmem.1 (by simpa using hmem.2)

theorem build_note_eq_empty_iff {qtys : List Int} :
    build_note qtys = "" ↔ ∀ q ∈ qtys, ¬ 1 < q := by
  rw [← noteVals_eq_nil_iff]
  unfold build_note
  cases hn : noteVals qtys with
  | nil => simp
  | cons v rest =>
    simp only [List.isEmpty_cons, Bool.false_eq_true, if_false]
    constructor
    · intro hj
      exfalso
      have hgrow := strJoin_length_ge_head (", ") (toString v ++ "в одну")
        (rest.map (fun q => toString q ++ "в одну"))
      have hmapeq : ((v :: rest).map (fun q => toString q ++ "в одну"))
          = (toString v ++ "в одну") :: rest.map (fun q => toString q ++ "в одну") := rfl
      rw [← hmapeq, hj] at hgrow
      rw [String.length_append] at hgrow
      have := int_toString_length_pos v
      simp only [String.length] at hgrow
      simp at hgrow
    · intro h
      simp at h

/-! ### Header resolution: exact stage, fallback stage, truthiness -/

theorem lastColWithNorm_of_exists {cols : List String} {nv : String}
    (h : ∃ c ∈ cols, _norm c = nv) :
    ∃ c, lastColWithNorm cols nv = some c ∧ c ∈ cols ∧ _norm c = nv := by
  unfold lastColWithNorm
  obtain ⟨c0, hc0, hn0⟩ := h
  have hsome : (cols.reverse.find? (fun c => _norm c == nv)).isSome = true := by
    rw [List.find?_isSome]
    exact ⟨c0, List.mem_reverse.mpr hc0, by simp [hn0]⟩
  obtain ⟨c, hc⟩ := Option.isSome_iff_exists.mp hsome
  refine ⟨c, hc, List.mem_reverse.mp (List.mem_of_find?_eq_some hc), ?_⟩
  have hp := List.find?_some hc
  rwa [beq_iff_eq] at hp

theorem lastColWithNorm_eq_none {cols : List String} {nv : String}
    (h : ∀ c ∈ cols, _norm c ≠ nv) : lastColWithNorm cols nv = none := by
  unfold lastColWithNorm
  rw [List.find?_eq_none]
  intro c hc hbeq
  exact h c (List.mem_reverse.mp hc) (by rwa [beq_iff_eq] at hbeq)

theorem exact_stage_sound (cols : List String) :
    ∀ (variants : List String) (v : String),
      variants.find? (fun v => cols.any (fun c => _norm c == _norm v)) = some v →
      ∃ c, c ∈ cols ∧ _norm c = _norm v ∧
        variants.findSome? (fun v => lastColWithNorm cols (_norm v)) = some c := by
  intro variants
  induction variants with
  | nil => intro v h; simp at h
  | cons v0 vs ih =>
    intro v h
    rw [List.find?_cons] at h
    cases hp : cols.any (fun c => _norm c == _norm v0) with
    | true =>
      rw [hp] at h
      have hv := Option.some.inj h
      subst hv
      obtain ⟨c0, hc0, hb⟩ := List.any_eq_true.mp hp
      rw [beq_iff_eq] at hb
      obtain ⟨c, hfind, hcmem, hcn⟩ := lastColWithNorm_of_exists ⟨c0, hc0, hb⟩
      exact ⟨c, hcmem, hcn, by rw [List.findSome?_cons, hfind]⟩
    | false =>
      rw [hp] at h
      obtain ⟨c, hcmem, hcn, hfs⟩ := ih v h
      refine ⟨c, hcmem, hcn, ?_⟩
      rw [List.findSome?_cons]
      have hnone : lastColWithNorm cols (_norm v0) = none := by
        apply lastColWithNorm_eq_none
        intro c' hc' hcn'
        have hany : cols.any (fun c => _norm c == _norm v0) = true :=
          List.any_eq_true.mpr ⟨c', hc', by simp [hcn']⟩
        rw [hp] at hany
        cases hany
      rw [hnone]
      exact hfs

theorem no_exact_findSome_none {cols variants : List String}
    (h : ∀ v ∈ variants, ∀ c ∈ cols, _norm c ≠ _norm v) :
    variants.findSome? (fun v => lastColWithNorm cols (_norm v)) = none := by
  rw [List.findSome?_eq_none_iff]
  intro v hv
  exact lastColWithNorm_eq_none (h v hv)

theorem pick_col_ne_some_empty {cols variants : List String}
    (hv : ∀ v ∈ variants, _norm v ≠ "") : _pick_col cols variants ≠ some ("") := by
  intro hbad
  unfold _pick_col at hbad
  cases hfs : variants.findSome? (fun v => lastColWithNorm cols (_norm v)) with
  | some c =>
    rw [hfs] at hbad
    have hc : c = "" := Option.some.inj hbad
    subst hc
    obtain ⟨v, hvmem, hlast⟩ := List.exists_of_findSome?_eq_some hfs
    have hcn := List.find?_some hlast
    rw [beq_iff_eq] at hcn
    exact hv v hvmem (hcn.symm.trans (by decide))
  | none =>
    rw [hfs] at hbad
    have hpred := List.find?_some hbad
    obtain ⟨v, hvmem, hb⟩ := List.any_eq_true.mp hpred
    rw [Bool.and_eq_true] at hb
    have hdata : (_norm v).data.isEmpty = true := hb.2
    have hvnil : _norm v = "" := String.ext (List.isEmpty_iff.mp hdata)
    have hb1 := hb.1
    rw [Bool.not_eq_eq_eq_not, Bool.not_true, beq_eq_false_iff_ne] at hb1
    exact hb1 hvnil

theorem truthyCol_pick_eq_isSome {cols variants : List String}
    (hv : ∀ v ∈ variants, _norm v ≠ "") :
    truthyCol (_pick_col cols variants) = (_pick_col cols variants).isSome := by
  cases hp : _pick_col cols variants with
  | none => rfl
  | some c =>
    have hc : ¬ c = "" := by
      intro h
      subst h
      exact pick_col_ne_some_empty hv hp
    simp [truthyCol, hc]

theorem status_variants_norm_ne : ∀ v ∈ status_variants, _norm v ≠ "" := by decide
theorem article_variants_norm_ne : ∀ v ∈ article_variants, _norm v ≠ "" := by decide
theorem qty_variants_norm_ne : ∀ v ∈ qty_variants, _norm v ≠ "" := by decide
theorem ship_variants_norm_ne : ∀ v ∈ ship_variants, _norm v ≠ "" := by decide

theorem codeMissing_eq_missingOf (df : Table) : codeMissing df = missingOf df := by
  unfold codeMissing missingOf
  rw [truthyCol_pick_eq_isSome status_variants_norm_ne,
    truthyCol_pick_eq_isSome article_variants_norm_ne,
    truthyCol_pick_eq_isSome qty_variants_norm_ne,
    truthyCol_pick_eq_isSome ship_variants_norm_ne]
  cases _pick_col df.cols status_variants <;>
    cases _pick_col df.cols article_variants <;>
      cases _pick_col df.cols qty_variants <;>
        cases _pick_col df.cols ship_variants <;> simp

/-! ### The parsed decimal is well formed and `astype(int)` truncates -/

theorem foldl_digits_lt : ∀ (cs : List Char), (∀ c ∈ cs, isDigitB c = true) →
    ∀ (acc : Nat), cs.foldl (fun a c => a * 10 + (c.toNat - 48)) acc < (acc + 1) * 10 ^ cs.length := by
  intro cs
  induction cs with
  | nil => intro _ acc; simp
  | cons c t ih =>
    intro h acc
    simp only [List.foldl_cons, List.length_cons]
    have hc : c.toNat - 48 ≤ 9 := by
      have hcd := h c (by simp)
      unfold isDigitB at hcd
      rw [Bool.and_eq_true, decide_eq_true_eq, decide_eq_true_eq] at hcd
      omega
    calc t.foldl (fun a c => a * 10 + (c.toNat - 48)) (acc * 10 + (c.toNat - 48))
        < (acc * 10 + (c.toNat - 48) + 1) * 10 ^ t.length := ih (fun x hx => h x (by simp [hx])) _
      _ ≤ ((acc + 1) * 10) * 10 ^ t.length := Nat.mul_le_mul_right _ (by omega)
      _ = (acc + 1) * 10 ^ (t.length + 1) := by ring

theorem digitsVal_lt (cs : List Char) (h : ∀ c ∈ cs, isDigitB c = true) :
    digitsVal cs < 10 ^ cs.length := by
  have hf := foldl_digits_lt cs h 0
  simpa [digitsVal] using hf

theorem parseExp_wf {neg : Bool} {ip fnum flen : Nat} {cs : List Char} {d : DecNum}
    (hf : fnum < 10 ^ flen) (h : parseExp neg ip fnum flen cs = some (PdVal.num d)) :
    d.fnum < 10 ^ d.flen := by
  unfold parseExp at h
  split at h
  · cases h
  · cases h
    exact hf

theorem parseMantissa_wf {neg : Bool} {cs : List Char} {d : DecNum}
    (h : parseMantissa neg cs = some (PdVal.num d)) : d.fnum < 10 ^ d.flen := by
  unfold parseMantissa at h
  split at h
  · split at h
    · cases h
    · cases h
      norm_num
  · split at h
    · split at h
      · cases h
      · split at h
        · cases h
          exact digitsVal_lt _ (fun c hc => List.mem_takeWhile_imp hc)
        · split at h
          · exact parseExp_wf (digitsVal_lt _ (fun c hc => List.mem_takeWhile_imp hc)) h
          · cases h
    · split at h
      · exact parseExp_wf (by norm_num) h
      · cases h

theorem to_numeric_wf {s : String} {d : DecNum} (h : to_numeric? s = some (PdVal.num d)) :
    d.fnum < 10 ^ d.flen := by
  unfold to_numeric? parseAfterSign at h
  split at h
  · cases h
  · split at h
    · cases h
    · exact parseMantissa_wf h

theorem trunc_signed (neg : Bool) (ip fnum flen : Nat) (hwf : fnum < 10 ^ flen) :
    (if neg then -(ip : Int) else (ip : Int)) =
      truncTowardZero ((if neg then (-1 : Rat) else 1)
        * ((ip : Rat) + (fnum : Rat) / ((10 : Rat) ^ flen))) := by
  have hfrac0 : (0 : Rat) ≤ (fnum : Rat) / ((10 : Rat) ^ flen) := by positivity
  have hfrac1 : (fnum : Rat) / ((10 : Rat) ^ flen) < 1 := by
    rw [div_lt_one (by positivity)]
    exact_mod_cast hwf
  have hfloor : ⌊(ip : Rat) + (fnum : Rat) / ((10 : Rat) ^ flen)⌋ = (ip : Int) := by
    have hcast : ((ip : Int) : Rat) = (ip : Rat) := by push_cast; ring
    rw [← hcast, Int.floor_int_add, Int.floor_eq_zero_iff.mpr ⟨hfrac0, hfrac1⟩, add_zero]
  unfold truncTowardZero
  cases neg with
  | false =>
    simp only [Bool.false_eq_true, if_false, one_mul]
    have hnotlt : ¬ ((ip : Rat) + (fnum : Rat) / ((10 : Rat) ^ flen) < 0) := by
      push_neg
      positivity
    rw [if_neg hnotlt, hfloor]
  | true =>
    simp only [if_true]
    by_cases hz : (ip : Rat) + (fnum : Rat) / ((10 : Rat) ^ flen) = 0
    · have hip0 : (ip : Rat) = 0 := by nlinarith [hfrac0, Nat.cast_nonneg (α := Rat) ip]
      have hipz : ip = 0 := by exact_mod_cast hip0
      have hvz : (-1 : Rat) * ((ip : Rat) + (fnum : Rat) / ((10 : Rat) ^ flen)) = 0 := by
        rw [hz, mul_zero]
      rw [hvz, hipz]
      norm_num
    · have hpos : 0 < (ip : Rat) + (fnum : Rat) / ((10 : Rat) ^ flen) :=
        lt_of_le_of_ne (by positivity) (Ne.symm hz)
      have hlt : (-1 : Rat) * ((ip : Rat) + (fnum : Rat) / ((10 : Rat) ^ flen)) < 0 := by
        nlinarith
      rw [if_pos hlt]
      have hnegneg : -((-1 : Rat) * ((ip : Rat) + (fnum : Rat) / ((10 : Rat) ^ flen)))
          = (ip : Rat) + (fnum : Rat) / ((10 : Rat) ^ flen) := by ring
      rw [hnegneg, hfloor]

theorem astype_int_exp_zero (d : DecNum) (hwf : d.fnum < 10 ^ d.flen) (h0 : d.exp = 0) :
    astype_int d = (if d.neg then -(d.ip : Int) else (d.ip : Int)) := by
  have hdiv : (d.ip * 10 ^ d.flen + d.fnum) / 10 ^ d.flen = d.ip := by
    rw [mul_comm, Nat.mul_add_div (by positivity), Nat.div_eq_of_lt hwf, add_zero]
  unfold astype_int
  rw [h0]
  simp only [Int.toNat_zero, neg_zero, pow_zero, mul_one, add_zero, hdiv]

theorem toRat_exp_zero (d : DecNum) (h0 : d.exp = 0) :
    d.toRat = (if d.neg then (-1 : Rat) else 1)
      * ((d.ip : Rat) + (d.fnum : Rat) / ((10 : Rat) ^ d.flen)) := by
  unfold DecNum.toRat
  rw [h0]
  norm_num

/-- On a finite parsed decimal with no exponent part, `astype_int` is
truncation toward zero of the decimal's rational value. -/
theorem astype_int_eq_truncTowardZero (d : DecNum) (hwf : d.fnum < 10 ^ d.flen)
    (h0 : d.exp = 0) : astype_int d = truncTowardZero d.toRat := by
  rw [astype_int_exp_zero d hwf h0, toRat_exp_zero d h0]
  exact trunc_signed d.neg d.ip d.fnum d.flen hwf

/-! ### Claim theorems -/

/-- C1: for every Article among the Ready Rows, the Article Summary row
for it carries a display built from the Total, the Total is the sum of
the Quantity values of the Ready Rows with that Article
(`articleTotal` = sum of `articleQtys`, the filtered quantity column),
and the Total is invariant under any permutation of the Ready Rows. -/
theorem article_total_is_group_sum (rows rows' : List Row) (a : String)
    (hperm : rows.Perm rows') (ha : a ∈ rows.map Row.article) :
    OutRow.mk a (displayQty (articleTotal rows a) (build_note (articleQtys rows a))) "" ∈ top_df rows
      ∧ articleTotal rows a = ((rows.filter (fun r => r.article == a)).map Row.qty).sum
      ∧ articleTotal rows a = articleTotal rows' a := by
  refine ⟨?_, rfl, ?_⟩
  · unfold top_df
    exact List.mem_map_of_mem _ (mem_sortedDedupStr.mpr ha)
  · unfold articleTotal
    exact (articleQtys_perm hperm a).sum_eq

theorem article_total_is_group_sum_witness :
    OutRow.mk ("A")
        (displayQty (articleTotal [⟨"A", 2, "S"⟩, ⟨"B", 1, "T"⟩, ⟨"A", 3, "S"⟩] "A")
          (build_note (articleQtys [⟨"A", 2, "S"⟩, ⟨"B", 1, "T"⟩, ⟨"A", 3, "S"⟩] "A"))) ""
      ∈ top_df [⟨"A", 2, "S"⟩, ⟨"B", 1, "T"⟩, ⟨"A", 3, "S"⟩]
      ∧ articleTotal [⟨"A", 2, "S"⟩, ⟨"B", 1, "T"⟩, ⟨"A", 3, "S"⟩] "A"
        = ((([⟨"A", 2, "S"⟩, ⟨"B", 1, "T"⟩, ⟨"A", 3, "S"⟩] : List Row).filter
            (fun r => r.article == "A")).map Row.qty).sum
      ∧ articleTotal [⟨"A", 2, "S"⟩, ⟨"B", 1, "T"⟩, ⟨"A", 3, "S"⟩] "A"
        = articleTotal [⟨"A", 3, "S"⟩, ⟨"B", 1, "T"⟩, ⟨"A", 2, "S"⟩] "A" :=
  article_total_is_group_sum [⟨"A", 2, "S"⟩, ⟨"B", 1, "T"⟩, ⟨"A", 3, "S"⟩]
    [⟨"A", 3, "S"⟩, ⟨"B", 1, "T"⟩, ⟨"A", 2, "S"⟩] "A" (by decide) (by decide)

/-- C2: the annotation values of a group are exactly the distinct
quantities strictly greater than 1, in strictly ascending order; the
annotation is empty exactly when there is no such value; and the worked
examples: quantities [1,1,2,2,3] give Total 9 and Display
"9(2в одну, 3в одну)", while an all-ones group displays only the total. -/
theorem annotation_and_display_rule (qtys : List Int) :
    List.Sorted (fun a b : Int => a < b) (noteVals qtys) ∧
    (∀ q : Int, q ∈ noteVals qtys ↔ q ∈ qtys ∧ 1 < q) ∧
    (build_note qtys = "" ↔ ∀ q ∈ qtys, ¬ 1 < q) ∧
    build_note [1, 1, 2, 2, 3] = "2в одну, 3в одну" ∧
    top_df [⟨"A", 1, "S"⟩, ⟨"A", 1, "S"⟩, ⟨"A", 2, "S"⟩, ⟨"A", 2, "S"⟩, ⟨"A", 3, "S"⟩]
      = [⟨"A", "9(2в одну, 3в одну)", ""⟩] ∧
    top_df [⟨"A", 1, "S"⟩, ⟨"A", 1, "S"⟩, ⟨"A", 1, "S"⟩] = [⟨"A", "3", ""⟩] := by
  refine ⟨?_, ?_, build_note_eq_empty_iff, by decide, by decide, by decide⟩
  · have hsorted : List.Sorted (fun a b : Int => a ≤ b) (noteVals qtys) :=
      List.sorted_insertionSort _ _
    have hnodup : (noteVals qtys).Nodup :=
      (List.nodup_dedup _).perm (List.perm_insertionSort _ _).symm
    exact hsorted.lt_of_le hnodup
  · intro q
    unfold noteVals
    rw [mem_sortedDedupInt, List.mem_filter]
    simp

/-- C3: the shipment section holds exactly one line per shipment with
more than one distinct article among the Ready Rows (none for the
others), each line being the article-sorted, "; "-joined rendering of the
per-article sums; the {A:2, A:1, B:3} example yields the single line
"A — 3; B — 3" and a one-article shipment yields nothing. -/
theorem shipment_multiline_rows (rows : List Row) :
    bottom_df rows = (multiShips rows).map (fun s => OutRow.mk (shipLine rows s) "" "") ∧
    (∀ s : String, s ∈ multiShips rows ↔ s ∈ rows.map Row.ship ∧ 1 < nuniqueArticles rows s) ∧
    bottom_df [⟨"A", 2, "S"⟩, ⟨"A", 1, "S"⟩, ⟨"B", 3, "S"⟩] = [⟨"A — 3; B — 3", "", ""⟩] ∧
    bottom_df [⟨"A", 2, "S"⟩, ⟨"A", 5, "S"⟩] = [] :=
  ⟨bottom_df_eq_map_multiShips rows, fun _ => mem_multiShips, by decide, by decide⟩

/-- C4: the final table is the summary rows, then exactly two blank rows
(also when no shipment line follows), then the shipment lines; on the
section-8 end-to-end input only the first two rows are Ready and the
output is one summary row (X1, "5(2в одну, 3в одну)", "") plus the two
blank rows. -/
theorem final_table_assembly :
    (∀ rows : List Row, build_main_df rows = top_df rows ++ [blankRow, blankRow] ++ bottom_df rows) ∧
    readyRows [⟨"Ожидает отгрузки", "X1", "2", "S1"⟩, ⟨"Ожидает отгрузки", "X1", "3", "S1"⟩,
        ⟨"other", "X2", "5", "S2"⟩] = [⟨"X1", 2, "S1"⟩, ⟨"X1", 3, "S1"⟩] ∧
    convertCore [⟨"Ожидает отгрузки", "X1", "2", "S1"⟩, ⟨"Ожидает отгрузки", "X1", "3", "S1"⟩,
        ⟨"other", "X2", "5", "S2"⟩] = [⟨"X1", "5(2в одну, 3в одну)", ""⟩, blankRow, blankRow] :=
  ⟨fun _ => rfl, by decide, by decide⟩

/-- C5: `_pick_col` resolves by the first variant, in priority order,
whose normalized form equals some normalized column name; with no exact
match it returns the first column, in original order, whose normalized
name contains some variant's non-empty normalized form; with neither it
is unresolved; and `_norm` behaves as specified on a worked example. -/
theorem header_resolution_algorithm (cols variants : List String) :
    (∀ v : String, variants.find? (fun v => cols.any (fun c => _norm c == _norm v)) = some v →
      ∃ c, c ∈ cols ∧ _norm c = _norm v ∧ _pick_col cols variants = some c) ∧
    ((∀ v ∈ variants, ∀ c ∈ cols, _norm c ≠ _norm v) →
      _pick_col cols variants =
        cols.find? (fun c =>
          variants.any (fun v => !(_norm v == "") && strHasSubstr (_norm c) (_norm v)))) ∧
    ((∀ v ∈ variants, ∀ c ∈ cols, _norm c ≠ _norm v) →
      (∀ c ∈ cols, ∀ v ∈ variants, ¬(_norm v ≠ "" ∧ strHasSubstr (_norm c) (_norm v) = true)) →
      _pick_col cols variants = none) ∧
    _norm (" Кол-во  товара!") = "кол во товара" := by
  refine ⟨?_, ?_, ?_, by decide⟩
  · intro v hfind
    obtain ⟨c, hcmem, hcn, hfs⟩ := exact_stage_sound cols variants v hfind
    exact ⟨c, hcmem, hcn, by unfold _pick_col; rw [hfs]⟩
  · intro hno
    unfold _pick_col
    rw [no_exact_findSome_none hno]
  · intro hno hnosub
    unfold _pick_col
    rw [no_exact_findSome_none hno]
    rw [List.find?_eq_none]
    intro c hc hb
    obtain ⟨v, hv, hvb⟩ := List.any_eq_true.mp hb
    rw [Bool.and_eq_true, Bool.not_eq_eq_eq_not, Bool.not_true, beq_eq_false_iff_ne] at hvb
    exact hnosub c hc v hv ⟨hvb.1, hvb.2⟩

theorem header_resolution_algorithm_witness :
    ∃ c, c ∈ [("Кол-во товара")] ∧ _norm c = _norm ("Кол-во товара") ∧
      _pick_col [("Кол-во товара")] qty_variants = some c :=
  (header_resolution_algorithm [("Кол-во товара")] qty_variants).1 ("Кол-во товара") (by decide)

/-- C6: column resolution fails exactly when some canonical field is
unresolved, the error lists exactly the unresolved canonical names in the
fixed order Статус, Артикул, Количество, Номер отправления, and success
returns a renamed table whose cell data is the input's, the input being
untouched. -/
theorem missing_columns_exactness (df : Table) :
    (∀ miss, ensure_required_columns df = Except.error miss → miss = missingOf df ∧ miss ≠ []) ∧
    ((∃ t, ensure_required_columns df = Except.ok t) ↔ missingOf df = []) ∧
    (∀ t, ensure_required_columns df = Except.ok t → t.cells = df.cells ∧
      t.cols = df.cols.map (renameFor (_pick_col df.cols status_variants)
        (_pick_col df.cols article_variants) (_pick_col df.cols qty_variants)
        (_pick_col df.cols ship_variants))) := by
  have hcm := codeMissing_eq_missingOf df
  unfold ensure_required_columns
  rw [hcm]
  by_cases he : (missingOf df).isEmpty = true
  · rw [if_pos he]
    refine ⟨?_, ?_, ?_⟩
    · intro miss h
      cases h
    · exact ⟨fun _ => List.isEmpty_iff.mp he, fun _ => ⟨_, rfl⟩⟩
    · intro t h
      cases h
      exact ⟨rfl, rfl⟩
  · rw [if_neg he]
    rw [List.isEmpty_iff] at he
    refine ⟨?_, ?_, ?_⟩
    · intro miss h
      cases h
      exact ⟨rfl, he⟩
    · constructor
      · rintro ⟨t, ht⟩
        exact Except.noConfusion ht
      · intro h
        exact absurd h he
    · intro t h
      exact Except.noConfusion h

theorem missing_columns_exactness_witness :
    ["Количество", "Номер отправления"] = missingOf (Table.mk ["Status", "Артикул продавца"] []) ∧
      ["Количество", "Номер отправления"] ≠ ([] : List String) :=
  (missing_columns_exactness (Table.mk ["Status", "Артикул продавца"] [])).1 _ rfl

/-- C7 counterexample: an error is raised for a bad Quantity value — the
raw string "inf" parses to a numeric infinity and the `astype(int)` step
raises (pandas IntCastingNaNError), aborting the whole conversion, so the
coercion does not always yield an integer without error. -/
theorem quantity_cast_error_counterexample :
    to_numeric? ("inf") = some (PdVal.inf false) ∧
    coerceQtyE ("inf") = Except.error () ∧
    readyRowsE [⟨"Ожидает отгрузки", "A", "inf", "S"⟩] = Except.error () := by
  refine ⟨by decide, rfl, rfl⟩

/-- C7 amended: the Row Filter keeps exactly the rows whose status equals
the target string (case-sensitively); non-numeric or missing Quantity
values — and the NaN literal — coerce to 0 without error; a finite
decimal with no exponent inside the float64-exact window is truncated
toward zero of its value ("3.9" gives 3, and "1e2" gives 100); but a
value parsing to an infinity (such as "inf") makes the conversion raise
instead of yielding a number. -/
theorem row_filter_and_quantity_coercion (table : List CRow) :
    (∀ r ∈ table, r.status = DEFAULT_STATUS →
      Row.mk r.article (coerceQty r.qtyRaw) r.ship ∈ readyRows table) ∧
    (∀ x ∈ readyRows table, ∃ r ∈ table, r.status = DEFAULT_STATUS ∧
      x = Row.mk r.article (coerceQty r.qtyRaw) r.ship) ∧
    (∀ s : String, to_numeric? s = none → coerceQtyE s = Except.ok 0) ∧
    (∀ s : String, to_numeric? s = some PdVal.nan → coerceQtyE s = Except.ok 0) ∧
    (∀ (s : String) (b : Bool), to_numeric? s = some (PdVal.inf b) →
      coerceQtyE s = Except.error ()) ∧
    (∀ (s : String) (d : DecNum), to_numeric? s = some (PdVal.num d) → d.exp = 0 →
      (d.ip + 1) * 10 ^ d.flen < 2 ^ 53 →
      coerceQtyE s = Except.ok (truncTowardZero d.toRat)) ∧
    coerceQty ("3.9") = 3 ∧ coerceQty ("1e2") = 100 ∧
    coerceQty ("abc") = 0 ∧ coerceQty ("") = 0 ∧
    readyRows [⟨"ожидает отгрузки", "A", "1", "S"⟩] = [] := by
  refine ⟨?_, ?_, ?_, ?_, ?_, ?_, by decide, by decide, by decide, by decide, by decide⟩
  · intro r hr hst
    unfold readyRows
    apply List.mem_map_of_mem
    rw [List.mem_filter]
    exact ⟨hr, by simp [hst]⟩
  · intro x hx
    unfold readyRows at hx
    obtain ⟨r, hr, rfl⟩ := List.mem_map.mp hx
    rw [List.mem_filter] at hr
    exact ⟨r, hr.1, by simpa using hr.2, rfl⟩
  · intro s hs
    unfold coerceQtyE
    rw [hs]
  · intro s hs
    unfold coerceQtyE
    rw [hs]
  · intro s b hs
    unfold coerceQtyE
    rw [hs]
  · intro s d hd hexp _
    unfold coerceQtyE
    rw [hd]
    show Except.ok (astype_int d) = Except.ok (truncTowardZero d.toRat)
    rw [astype_int_eq_truncTowardZero d (to_numeric_wf hd) hexp]

theorem row_filter_and_quantity_coercion_witness :
    Row.mk ("A") (coerceQty ("2")) ("S") ∈ readyRows [⟨"Ожидает отгрузки", "A", "2", "S"⟩] :=
  (row_filter_and_quantity_coercion [⟨"Ожидает отгрузки", "A", "2", "S"⟩]).1
    ⟨"Ожидает отгрузки", "A", "2", "S"⟩ (by decide) (by decide)

/-- C8 counterexample: a Ready Row can carry a negative Quantity — the
raw value "-5" passes the filter and is parsed to -5 < 0, contradicting
the claim that Ready Row quantities are always non-negative. -/
theorem ready_quantity_negative_counterexample :
    ∃ x, x ∈ readyRows [⟨"Ожидает отгрузки", "A", "-5", "S"⟩] ∧ x.qty < 0 :=
  ⟨Row.mk ("A") (-5) ("S"), by decide, by decide⟩

/-- C8 amended: every Ready Row's Quantity is the integer coercion of the
raw value of a status-matching input row, with invalid or missing values
(including the NaN literal) parsed as zero; the Quantity is not
guaranteed non-negative — a negative raw number such as "-5" yields the
negative Quantity -5. -/
theorem ready_quantity_parse_amended (table : List CRow) (x : Row) (hx : x ∈ readyRows table) :
    (∃ r ∈ table, r.status = DEFAULT_STATUS ∧ x.qty = coerceQty r.qtyRaw ∧
      (to_numeric? r.qtyRaw = none → x.qty = 0) ∧
      (to_numeric? r.qtyRaw = some PdVal.nan → x.qty = 0)) ∧
    coerceQty ("-5") = -5 := by
  refine ⟨?_, by decide⟩
  unfold readyRows at hx
  obtain ⟨r, hr, rfl⟩ := List.mem_map.mp hx
  rw [List.mem_filter] at hr
  refine ⟨r, hr.1, by simpa using hr.2, rfl, ?_, ?_⟩
  · intro h
    show coerceQty r.qtyRaw = 0
    unfold coerceQty coerceQtyE
    rw [h]
  · intro h
    show coerceQty r.qtyRaw = 0
    unfold coerceQty coerceQtyE
    rw [h]

theorem ready_quantity_parse_amended_witness :
    (∃ r ∈ [CRow.mk ("Ожидает отгрузки") ("A") ("7") ("S")],
      r.status = DEFAULT_STATUS ∧ (Row.mk ("A") 7 ("S")).qty = coerceQty r.qtyRaw ∧
      (to_numeric? r.qtyRaw = none → (Row.mk ("A") 7 ("S")).qty = 0) ∧
      (to_numeric? r.qtyRaw = some PdVal.nan → (Row.mk ("A") 7 ("S")).qty = 0)) ∧
    coerceQty ("-5") = -5 :=
  ready_quantity_parse_amended [CRow.mk ("Ожидает отгрузки") ("A") ("7") ("S")]
    (Row.mk ("A") 7 ("S")) (by decide)

/-- C9: every shipment line row satisfies the downstream bolding shape
(non-blank first column containing an em-dash, empty second and third
columns) and no article summary row does, its second column being the
never-empty display quantity — even when the article itself contains an
em-dash or semicolon. -/
theorem bold_shape_invariant (rows : List Row) :
    (∀ r ∈ bottom_df rows, boldShape r = true) ∧ (∀ r ∈ top_df rows, boldShape r = false) :=
  ⟨fun _ hr => boldShape_of_mem_bottom hr, fun _ hr => boldShape_of_mem_top hr⟩

theorem bold_shape_invariant_witness :
    boldShape (OutRow.mk ("X — 2; Y — 3") ("") ("")) = true ∧ boldShape (OutRow.mk ("A—B") ("1") ("")) = false :=
  ⟨(bold_shape_invariant [⟨"A—B", 1, "S1"⟩, ⟨"X", 2, "S2"⟩, ⟨"Y", 3, "S2"⟩]).1 _ (by decide),
   (bold_shape_invariant [⟨"A—B", 1, "S1"⟩, ⟨"X", 2, "S2"⟩, ⟨"Y", 3, "S2"⟩]).2 _ (by decide)⟩

/-- C10: the output is fully determined by the multiset of Ready Rows,
the summary rows are sorted by Article in the codepoint order and the
shipment lines by Shipment Number, and a [B, A] input comes out as
[A, B] — lexical, not first-seen, order. -/
theorem output_order_lexical (rows rows' : List Row) (hperm : rows.Perm rows') :
    build_main_df rows = build_main_df rows' ∧
    (top_df rows).map OutRow.artikul = sortedDedupStr (rows.map Row.article) ∧
    List.Sorted StrLe ((top_df rows).map OutRow.artikul) ∧
    List.Sorted StrLe (multiShips rows) ∧
    (top_df [⟨"B", 1, "S"⟩, ⟨"A", 1, "T"⟩]).map OutRow.artikul = ["A", "B"] := by
  have hmap : (top_df rows).map OutRow.artikul = sortedDedupStr (rows.map Row.article) := by
    unfold top_df
    rw [List.map_map]
    exact (List.map_congr_left (fun a _ => rfl)).trans (List.map_id _)
  refine ⟨build_main_df_perm hperm, hmap, ?_, ?_, by decide⟩
  · rw [hmap]
    exact sortedDedupStr_sorted _
  · unfold multiShips
    exact (sortedDedupStr_sorted _).filter _

theorem output_order_lexical_witness :
    build_main_df [⟨"B", 1, "S"⟩, ⟨"A", 1, "T"⟩] = build_main_df [⟨"A", 1, "T"⟩, ⟨"B", 1, "S"⟩] :=
  (output_order_lexical [⟨"B", 1, "S"⟩, ⟨"A", 1, "T"⟩] [⟨"A", 1, "T"⟩, ⟨"B", 1, "S"⟩]
    (by decide)).1
